import Mathlib

/-!
A shallow embedding of `enterprise/signals/parameter.py`, the hierarchical
named-parameter graph engine of the `enterprise` repository, together with
theorems settling the frozen claims about it.

Conventions of the embedding:
* Python dictionaries with string keys are association lists (`Dict`), with
  Python semantics: updating an existing key replaces the entry in place,
  a new key is appended at the end.
* The instantiated object graph (`Parameter`, `ConstantParameter`,
  `Function` instances) is the mutual inductive family `PParam` / `SubPar` /
  `PFunc`.  Uninstantiated classes ("specs") produced by the class factories
  are `ParamSpec` / `ArgSpec` / `FuncSpec`.
* External callables (the wrapped functions, and samplers backed by the
  ambient random source) are an environment `Env`: `gam` interprets a pure
  callable id applied to positional arguments and resolved keyword
  arguments, `del` interprets a sampler id applied to resolved keyword
  arguments and the index of the draw in the ambient random stream (the
  index is threaded through evaluation and incremented once per draw).
* The probability library (`scipy.stats`, `numpy`) is out of scope per the
  spec; its functions appear as explicit function parameters of the
  numeric-layer definitions (`npLog`, `tenPow`, `rvs`, ...), over `ℚ`.
-/

/-- Runtime values stored in the flat value mappings of the graph layer. -/
inductive PVal : Type where
  | vnone : PVal
  | int (n : Int) : PVal
deriving DecidableEq, Repr

/-- A Python string-keyed dictionary, as an association list in insertion
order. -/
abbrev Dict (α : Type) : Type := List (String × α)

/-- Dictionary lookup (`d[k]` / `d.get(k)`), first matching key. -/
def dlookup {α : Type} : Dict α → String → Option α
  | [], _ => none
  | kv :: rest, k => if kv.1 = k then some kv.2 else dlookup rest k

/-- Dictionary write `d[k] = v`: replaces the first entry with key `k` in
place, else appends at the end (Python dict semantics). -/
def dinsert {α : Type} : Dict α → String → α → Dict α
  | [], k, v => [(k, v)]
  | kv :: rest, k, v => if kv.1 = k then (k, v) :: rest else kv :: dinsert rest k v

/-- `d.update(other)`: write every entry of `other` into `d`, in order. -/
def dupdate {α : Type} (d other : Dict α) : Dict α :=
  other.foldl (fun acc kv => dinsert acc kv.1 kv.2) d

@[simp] theorem dlookup_nil {α : Type} (k : String) : dlookup ([] : Dict α) k = none := rfl

theorem dlookup_cons {α : Type} (kv : String × α) (rest : Dict α) (k : String) :
    dlookup (kv :: rest) k = if kv.1 = k then some kv.2 else dlookup rest k := rfl

@[simp] theorem dlookup_dinsert_self {α : Type} (d : Dict α) (k : String) (v : α) :
    dlookup (dinsert d k v) k = some v := by
  induction d with
  | nil => simp [dinsert, dlookup]
  | cons kv rest ih =>
      by_cases h : kv.1 = k
      · simp [dinsert, h, dlookup]
      · simp [dinsert, h, dlookup, ih]

theorem dlookup_dinsert_ne {α : Type} (d : Dict α) (k k' : String) (v : α) (h : k ≠ k') :
    dlookup (dinsert d k v) k' = dlookup d k' := by
  induction d with
  | nil => simp [dinsert, dlookup, h]
  | cons kv rest ih =>
      by_cases hk : kv.1 = k
      · simp [dinsert, hk, dlookup, h]
      · simp [dinsert, hk, dlookup, ih]

/-- Lookup through a key-based filter. -/
theorem dlookup_filter {α : Type} (q : String → Bool) (d : Dict α) (k : String) :
    dlookup (d.filter (fun kv => q kv.1)) k = if q k then dlookup d k else none := by
  induction d with
  | nil => simp [dlookup]
  | cons kv rest ih =>
      by_cases hk : kv.1 = k
      · subst hk
        by_cases hq : q kv.1 <;> simp [List.filter, hq, dlookup, ih]
      · by_cases hq : q kv.1 <;> simp [List.filter, hq, dlookup, hk, ih]

mutual
/-- An instantiated `Parameter`: `name`, `_size`, optional `_sampler`
(an id interpreted by the environment), and the instantiated prior
`Function`. -/
inductive PParam : Type where
  | mk (name : String) (size : Option Nat) (sampler : Option Nat) (prior : PFunc) : PParam

/-- A value of `Function._params`: either an instantiated `Parameter` or an
instantiated `ConstantParameter` (from a `Constant(val)` subclass, so its
`value` attribute is the fixed `val`). -/
inductive SubPar : Type where
  | par (p : PParam) : SubPar
  | const (name : String) (value : PVal) : SubPar

/-- An instantiated `Function`: `name`, wrapped-callable id `fid`, `_psr`,
and the four keyword structures built by `Function.__init__`: `_params`,
`_funcs`, `_defaults`, and the declared keyword list `func_kwargs` (only its
keys matter at call time). -/
inductive PFunc : Type where
  | mk (name : String) (fid : Nat) (psr : Option PVal)
       (fparams : List (String × SubPar))
       (ffuncs : List (String × PFunc))
       (fdefaults : List (String × PVal))
       (fkwargs : List String) : PFunc
end

def PParam.name : PParam → String
  | .mk n _ _ _ => n

def PParam.size : PParam → Option Nat
  | .mk _ s _ _ => s

def PParam.sampler : PParam → Option Nat
  | .mk _ _ s _ => s

def PParam.prior : PParam → PFunc
  | .mk _ _ _ pr => pr

def SubPar.isConst : SubPar → Bool
  | .par _ => false
  | .const _ _ => true

/-- The `name` attribute of a `_params` entry. -/
def SubPar.spname : SubPar → String
  | .par p => p.name
  | .const n _ => n

/-- `par.value` when present: `hasattr(par, 'value')` holds exactly for
`ConstantParameter` values, whose `value` is the fixed constant. -/
def SubPar.constVal : SubPar → Option PVal
  | .par _ => none
  | .const _ v => some v

def PFunc.name : PFunc → String
  | .mk n _ _ _ _ _ _ => n

def PFunc.fid : PFunc → Nat
  | .mk _ i _ _ _ _ _ => i

def PFunc.psr : PFunc → Option PVal
  | .mk _ _ p _ _ _ _ => p

def PFunc.fparams : PFunc → List (String × SubPar)
  | .mk _ _ _ ps _ _ _ => ps

def PFunc.ffuncs : PFunc → List (String × PFunc)
  | .mk _ _ _ _ fs _ _ => fs

def PFunc.fdefaults : PFunc → List (String × PVal)
  | .mk _ _ _ _ _ ds _ => ds

def PFunc.fkwargs : PFunc → List String
  | .mk _ _ _ _ _ _ ks => ks

mutual
/-- `Parameter.params`: `[self] + [par for par in self.prior.params
if not isinstance(par, ConstantParameter)]`. -/
def paramsP : PParam → List SubPar
  | .mk n sz sp prior =>
      SubPar.par (.mk n sz sp prior) :: (paramsF prior).filter (fun e => !e.isConst)

/-- `Function.params`: `sum([par.params for par in self._params.values()
if not isinstance(par, ConstantParameter)], [])`. -/
def paramsF : PFunc → List SubPar
  | .mk _ _ _ fparams _ _ _ => paramsEntries fparams

/-- The loop of `Function.params` over `self._params.values()`. -/
def paramsEntries : List (String × SubPar) → List SubPar
  | [] => []
  | (_, .const _ _) :: rest => paramsEntries rest
  | (_, .par p) :: rest => paramsP p ++ paramsEntries rest
end

theorem paramsP_def (p : PParam) :
    paramsP p = SubPar.par p :: (paramsF p.prior).filter (fun e => !e.isConst) := by
  cases p with
  | mk n sz sp prior => simp [paramsP, PParam.prior]

theorem paramsP_noConst (p : PParam) : ∀ e ∈ paramsP p, e.isConst = false := by
  intro e he
  rw [paramsP_def] at he
  rcases List.mem_cons.mp he with h | h
  · subst h; rfl
  · have := List.of_mem_filter h
    simpa using this

theorem paramsEntries_noConst :
    ∀ (l : List (String × SubPar)), ∀ e ∈ paramsEntries l, e.isConst = false := by
  intro l
  induction l with
  | nil => intro e he; simp [paramsEntries] at he
  | cons kv rest ih =>
      intro e he
      match kv with
      | (_k, .const _n _v) =>
          exact ih e (by simpa [paramsEntries] using he)
      | (_k, .par p) =>
          rcases List.mem_append.mp (by simpa [paramsEntries] using he) with h | h
          · exact paramsP_noConst p e h
          · exact ih e h

theorem paramsF_noConst (f : PFunc) : ∀ e ∈ paramsF f, e.isConst = false := by
  cases f with
  | mk n i ps fp ff fd fk =>
      intro e he
      exact paramsEntries_noConst fp e (by simpa [paramsF] using he)

/-- C6: `Parameter.params` is self followed by the non-constant members of
the prior's flattened list, and no `ConstantParameter` ever appears in any
`params` result, of either a `Parameter` or a `Function`. -/
theorem params_flattening_excludes_constants :
    (∀ p : PParam,
        paramsP p = SubPar.par p :: (paramsF p.prior).filter (fun e => !e.isConst) ∧
        ∀ e ∈ paramsP p, e.isConst = false) ∧
    (∀ f : PFunc, ∀ e ∈ paramsF f, e.isConst = false) :=
  ⟨fun p => ⟨paramsP_def p, paramsP_noConst p⟩, paramsF_noConst⟩

/-- C6 witness: a concrete parameter whose prior carries a constant and a
free hyperparameter. -/
def wHyper : PParam := .mk "w_h" none (some 0) (.mk "w_h" 7 none [] [] [] [])

def wPrior : PFunc :=
  .mk "w" 8 none [("mu", SubPar.par wHyper), ("c", SubPar.const "w_c" (PVal.int 4))] [] [] ["mu", "c"]

def wParam : PParam := .mk "w" none (some 1) wPrior

theorem params_flattening_excludes_constants_witness :
    (SubPar.par wHyper) ∈ paramsP wParam ∧ (SubPar.par wHyper).isConst = false :=
  ⟨by simp [wParam, wPrior, wHyper, paramsP, paramsF, paramsEntries, SubPar.isConst],
   (params_flattening_excludes_constants.1 wParam).2 (SubPar.par wHyper)
     (by simp [wParam, wPrior, wHyper, paramsP, paramsF, paramsEntries, SubPar.isConst])⟩

/-- `Parameter.__call__(self, name)`: an instantiated parameter refuses to
be renamed and returns itself. -/
def PParam.renameCall (p : PParam) (_candidate : String) : PParam := p

/-- `ConstantParameter.__call__(self, name)`: likewise returns itself.
A constant instance is represented by its `(name, value)` data. -/
def constRenameCall (c : String × PVal) (_candidate : String) : String × PVal := c

/-- C8: invoking an already-instantiated `Parameter` (or
`ConstantParameter`) with a candidate name is a no-op returning the
identical instance: name, prior, size and sampler are unchanged. -/
theorem rename_call_is_noop :
    (∀ (p : PParam) (candidate : String),
        p.renameCall candidate = p ∧
        (p.renameCall candidate).name = p.name ∧
        (p.renameCall candidate).prior = p.prior ∧
        (p.renameCall candidate).size = p.size ∧
        (p.renameCall candidate).sampler = p.sampler) ∧
    (∀ (c : String × PVal) (candidate : String), constRenameCall c candidate = c) :=
  ⟨fun _p _candidate => ⟨rfl, rfl, rfl, rfl, rfl⟩, fun _c _candidate => rfl⟩

/-- The class of a constant-parameter instance: either the base
`ConstantParameter` class itself, whose `value` is the self-recursive
property, or a subclass made by `Constant(val)`, whose plain class
attribute `value = val` shadows the property in the method-resolution
order. -/
inductive ConstCls : Type where
  | base : ConstCls
  | constant (val : PVal) : ConstCls

/-- Reading `self.value`, with a recursion budget: on the base class the
property getter executes `return self.value`, which invokes the property
again; on a `Constant(val)` subclass the plain class attribute is found
first and returned. `none` models a read that never returns (the budget is
exhausted at every depth). -/
def constGetValue : ConstCls → Nat → Option PVal
  | .constant v, _ => some v
  | .base, 0 => none
  | .base, fuel + 1 => constGetValue .base fuel

/-- Writing `self.value = w`, with a recursion budget: on the base class the
property setter executes `self.value = value`, invoking the setter again;
on a `Constant(val)` subclass the plain class attribute is not a data
descriptor, so the write lands in the instance dictionary and terminates. -/
def constSetValue : ConstCls → Nat → PVal → Option Unit
  | .constant _, _, _ => some ()
  | .base, 0, _ => none
  | .base, fuel + 1, w => constSetValue .base fuel w

/-- C10: on the base `ConstantParameter` class both reading and writing
`value` recurse forever (no budget suffices), while on a `Constant(val)`
subclass reading terminates and returns `val` (and writing terminates). -/
theorem constant_value_access :
    (∀ fuel, constGetValue .base fuel = none) ∧
    (∀ fuel w, constSetValue .base fuel w = none) ∧
    (∀ v fuel, constGetValue (.constant v) fuel = some v) ∧
    (∀ v fuel w, constSetValue (.constant v) fuel w = some ()) := by
  refine ⟨?_, ?_, fun v fuel => by simp [constGetValue], fun v fuel w => by simp [constSetValue]⟩
  · intro fuel
    induction fuel with
    | zero => rfl
    | succ n ih => simpa [constGetValue] using ih
  · intro fuel w
    induction fuel with
    | zero => rfl
    | succ n ih => simpa [constSetValue] using ih

/-- The external callables: `gam` interprets a pure wrapped-callable id on
positional arguments and resolved keyword arguments; `del` interprets a
sampler id on resolved keyword arguments and the index of the draw in the
ambient random stream. -/
structure Env : Type where
  gam : Nat → List PVal → Dict PVal → PVal
  del : Nat → Dict PVal → Nat → PVal

/-- The fixed pass-through allow-list of `Function.__call__` (line 374):
keys kept even though not declared slots. -/
def allowKeys : List String := ["psr", "mask", "size"]

/-- Lines 366-374 of `Function.__call__`: add `psr` when the instance
carries one and the key is absent, then drop every key that is neither a
declared slot nor in the allow-list. -/
def postProcess (f : PFunc) (d : Dict PVal) : Dict PVal :=
  let d2 := match f.psr with
    | some pv => if (dlookup d "psr").isSome then d else dinsert d "psr" pv
    | none => d
  d2.filter (fun kv => f.fkwargs.contains kv.1 || allowKeys.contains kv.1)

/-- One iteration of the resolution loop of `Function.__call__`
(lines 348-364) for slot `kw`, acting on the mutable `kwargs` dictionary
and the draw counter; `sub` evaluates a sub-function (`f(**fargs)`), and
`none` propagates an exhausted recursion budget. -/
def resolveStepH (sub : PFunc → Dict PVal → Nat → Option (PVal × Nat))
    (f : PFunc) (params : Dict PVal) (kw : String) (acc : Dict PVal × Nat) :
    Option (Dict PVal × Nat) :=
  if (dlookup acc.1 kw).isSome then some acc
  else
    match dlookup f.fparams kw with
    | some sp =>
        match dlookup params sp.spname with
        | some v => some (dinsert acc.1 kw v, acc.2)
        | none =>
            match sp.constVal with
            | some cv => some (dinsert acc.1 kw cv, acc.2)
            | none => some acc
    | none =>
      match dlookup f.fdefaults kw with
      | some v => some (dinsert acc.1 kw v, acc.2)
      | none =>
        match dlookup f.ffuncs kw with
        | some g =>
            (sub g (acc.1.filter (fun kv => g.fkwargs.contains kv.1)) acc.2).map
              (fun r => (dinsert acc.1 kw r.1, r.2))
        | none => some acc

/-- The resolution loop of `Function.__call__` over the declared slots
(`for kw, arg in func_kwargs.items()`), threading the mutated `kwargs`. -/
def resolveAllH (sub : PFunc → Dict PVal → Nat → Option (PVal × Nat))
    (f : PFunc) (params : Dict PVal) :
    List String → (Dict PVal × Nat) → Option (Dict PVal × Nat)
  | [], acc => some acc
  | kw :: rest, acc =>
      (resolveStepH sub f params kw acc).bind (resolveAllH sub f params rest)

/-- `Function.__call__`.  The caller has already extracted `params` and the
optional `func` override from the keyword dictionary (lines 324-332);
`kwargs0` is the remainder.  `fnOv = some sid` substitutes sampler `sid`
for the wrapped callable; drawing from the random stream consumes one index.
The `Nat` budget bounds the sub-function recursion depth (`none` = budget
exhausted; the Python graphs are finite trees, so any large enough budget
is exact). -/
def callF (E : Env) :
    Nat → PFunc → List PVal → Dict PVal → Option Nat → Dict PVal → Nat →
    Option (PVal × Nat)
  | 0, _, _, _, _, _, _ => none
  | fuel + 1, f, args, params, fnOv, kwargs0, σ =>
      (resolveAllH (fun g d σ2 => callF E fuel g [] params none d σ2)
          f params f.fkwargs (kwargs0, σ)).map
        (fun r =>
          let kept := postProcess f r.1
          match fnOv with
          | none => (E.gam f.fid args kept, r.2)
          | some sid => (E.del sid kept r.2, r.2 + 1))

/-- The sub-function evaluator that `callF` at budget `fuel + 1` hands to
the resolution loop. -/
def subEval (E : Env) (fuel : Nat) (params : Dict PVal) :
    PFunc → Dict PVal → Nat → Option (PVal × Nat) :=
  fun g d σ2 => callF E fuel g [] params none d σ2

theorem callF_succ (E : Env) (fuel : Nat) (f : PFunc) (args : List PVal)
    (params : Dict PVal) (fnOv : Option Nat) (kwargs0 : Dict PVal) (σ : Nat) :
    callF E (fuel + 1) f args params fnOv kwargs0 σ =
      (resolveAllH (subEval E fuel params) f params f.fkwargs (kwargs0, σ)).map
        (fun r =>
          let kept := postProcess f r.1
          match fnOv with
          | none => (E.gam f.fid args kept, r.2)
          | some sid => (E.del sid kept r.2, r.2 + 1)) := rfl

/-- Errors of the sampling layer.  `noSampler` is the `AttributeError` of
`Parameter.sample`, `valueGiven` its `ValueError`; `typeErr` is Python's
duplicate-keyword `TypeError` in `self.prior(func=..., size=..., **kwargs)`;
`attrNoParams` is the `AttributeError` of using a `ConstantParameter` in the
sampling driver; `budgetOut` reports an exhausted recursion budget. -/
inductive SErr : Type where
  | noSampler : SErr
  | valueGiven : SErr
  | typeErr : SErr
  | attrNoParams : SErr
  | budgetOut : SErr
deriving DecidableEq, Repr

/-- The value of the `size=self._size` keyword. -/
def sizeVal : Option Nat → PVal
  | none => .vnone
  | some n => .int (Int.ofNat n)

/-- `Parameter.sample(self, **kwargs)` (lines 60-68).  The keyword
dictionary is represented as the optional `params` entry (`paramsArg`) plus
the remaining entries (`others`, whose keys are not `params`); Python's
`self.name in kwargs` membership test is therefore the disjunction below.
On success it calls `self.prior(func=self._sampler, size=self._size,
**kwargs)`. -/
def psample (E : Env) (cfuel : Nat) (p : PParam) (paramsArg : Option (Dict PVal))
    (others : Dict PVal) (σ : Nat) : Except SErr (PVal × Nat) :=
  match p.sampler with
  | none => .error .noSampler
  | some sid =>
      if others.any (fun kv => kv.1 == p.name) || (paramsArg.isSome && p.name == "params") then
        .error .valueGiven
      else if others.any (fun kv => kv.1 == "params" || kv.1 == "func" || kv.1 == "size") then
        .error .typeErr
      else
        match callF E cfuel p.prior [] (paramsArg.getD []) (some sid)
            (("size", sizeVal p.size) :: others) σ with
        | some r => .ok r
        | none => .error .budgetOut

/-- Python's membership test `par in parvalues` on line 33: `par` is a
`Parameter` (or `ConstantParameter`) object, while the keys of `parvalues`
are strings; `Parameter` does not define `__eq__`, so the object compares
equal to no string and the test is false for every key. -/
def pyEqObjStr (sp : SubPar) (k : String) : Bool := false

/-- Line 33: `if par not in parvalues` (negated here: `par in parvalues`). -/
def parInDict (sp : SubPar) (d : Dict PVal) : Bool :=
  d.any (fun kv => pyEqObjStr sp kv.1)

/-- The loop of `_sample(parlist, parvalues)` (lines 29-35): `deep` is the
recursive `sample(par.params[1:])` call (a fresh dictionary), `cfuel` the
budget handed to `Function.__call__`. -/
def sampleLoopH (E : Env) (cfuel : Nat)
    (deep : List SubPar → Nat → Except SErr (Dict PVal × Nat)) :
    List SubPar → Dict PVal → Nat → Except SErr (Dict PVal × Nat)
  | [], ret, σ => .ok (ret, σ)
  | sp :: rest, ret, σ =>
      if parInDict sp ret then sampleLoopH E cfuel deep rest ret σ
      else
        match sp with
        | .const _ _ => .error .attrNoParams
        | .par p => do
            let r1 ← deep (List.drop 1 (paramsP p)) σ
            let ret1 := dupdate ret r1.1
            let r2 ← psample E cfuel p (some ret1) [] r1.2
            sampleLoopH E cfuel deep rest (dinsert ret1 p.name r2.1) r2.2

/-- The module-level `sample(parlist)` (lines 16-26): creates a fresh
result dictionary and runs `_sample` over it; the recursion budget bounds
the hyperparameter depth. -/
def msample (E : Env) : Nat → List SubPar → Nat → Except SErr (Dict PVal × Nat)
  | 0, _, _ => .error .budgetOut
  | fuel + 1, parlist, σ =>
      sampleLoopH E (fuel + 1) (fun l σ2 => msample E fuel l σ2) parlist [] σ

/-- A hyperparameter `h` with a hyperparameter-free prior (its `pmin` and
`pmax` are literal defaults) and sampler id 0. -/
def hPrior : PFunc :=
  .mk "h" 100 none [] [] [("pmin", PVal.int 0), ("pmax", PVal.int 1)] ["pmin", "pmax"]

def hP : PParam := .mk "h" none (some 0) hPrior

/-- Root parameter `p` whose prior consumes `h` through its `mu` slot. -/
def pPrior : PFunc := .mk "p" 101 none [("mu", SubPar.par hP)] [] [] ["mu"]

def pP : PParam := .mk "p" none (some 1) pPrior

/-- Root parameter `q` sharing the same hyperparameter `h`. -/
def qPrior : PFunc := .mk "q" 102 none [("mu", SubPar.par hP)] [] [] ["mu"]

def qP : PParam := .mk "q" none (some 2) qPrior

/-- Samplers that expose the draw order: a draw with a resolved `mu`
hyperparameter returns `10 * mu + index`, any other draw returns its
stream index. -/
def envShared : Env :=
  { gam := fun _ _ _ => PVal.vnone,
    del := fun _ kws σ =>
      match dlookup kws "mu" with
      | some (PVal.int m) => PVal.int (10 * m + Int.ofNat σ)
      | _ => PVal.int (Int.ofNat σ) }

/-- C1 (code bug): running the module-level `sample` on the two roots
`[p, q]`, which share the hyperparameter `h`.  The membership test
`par not in parvalues` (line 33) compares a `Parameter` object with the
dictionary's string keys and is therefore always true, so `h` is sampled
again for `q` and overwritten: the run consumes four draws from the random
stream for three parameters; `p`'s recorded value `10*0+1` shows it
consumed the first draw of `h` (value 0), while the returned mapping
records `h = 2`, the second draw, taken after `p` — contradicting the
claimed exactly-once sampling and the consistency of the returned
mapping. -/
theorem sample_shared_hyperparameter_resampled :
    msample envShared 4 [SubPar.par pP, SubPar.par qP] 0 =
      .ok ([("h", PVal.int 2), ("p", PVal.int 1), ("q", PVal.int 23)], 4) := by
  rfl

/-- C4: `Parameter.sample` raises the configuration error when no sampler
is attached; raises the usage error when the supplied keyword context
already contains a value under the parameter's own name; and otherwise
invokes the prior's resolution machinery with the sampler substituted for
the wrapped callable and the parameter's `size` passed through. -/
theorem parameter_sample_errors (E : Env) (cfuel : Nat) (p : PParam)
    (paramsArg : Option (Dict PVal)) (others : Dict PVal) (σ : Nat) :
    (p.sampler = none → psample E cfuel p paramsArg others σ = .error .noSampler) ∧
    (∀ sid, p.sampler = some sid →
      (others.any (fun kv => kv.1 == p.name) ||
        (paramsArg.isSome && p.name == "params")) = true →
      psample E cfuel p paramsArg others σ = .error .valueGiven) ∧
    (∀ sid, p.sampler = some sid →
      (others.any (fun kv => kv.1 == p.name) ||
        (paramsArg.isSome && p.name == "params")) = false →
      (others.any (fun kv => kv.1 == "params" || kv.1 == "func" || kv.1 == "size")) = false →
      psample E cfuel p paramsArg others σ =
        match callF E cfuel p.prior [] (paramsArg.getD []) (some sid)
            (("size", sizeVal p.size) :: others) σ with
        | some r => .ok r
        | none => .error .budgetOut) := by
  refine ⟨fun h => by simp [psample, h], fun sid h1 h2 => by simp [psample, h1, h2],
    fun sid h1 h2 h3 => ?_⟩
  simp [psample, h1, h2, h3]

/-- C4 witness: sampling `h` while handing it its own value as a keyword. -/
theorem parameter_sample_errors_witness :
    (([(("h" : String), PVal.int 3)].any (fun kv => kv.1 == PParam.name hP) ||
        ((none : Option (Dict PVal)).isSome && PParam.name hP == "params")) = true) ∧
    psample envShared 3 hP none [("h", PVal.int 3)] 0 = .error .valueGiven :=
  ⟨by decide,
   (parameter_sample_errors envShared 3 hP none [("h", PVal.int 3)] 0).2.1 0 rfl (by decide)⟩

/-- `'_'.join([n for n in parts if n])`: join the non-empty name parts with
underscores (lines 279, 302, 310). -/
def joinName (parts : List String) : String :=
  String.intercalate "_" (parts.filter (fun s => s != ""))

mutual
/-- An uninstantiated `Parameter` class, as produced by the class factories
(`Uniform`, `Normal`, `LinearExp`, `UserParameter`): class attributes
`_size`, `_sampler` and the uninstantiated prior `Function` class. -/
inductive ParamSpec : Type where
  | mk (size : Option Nat) (sampler : Option Nat) (priorSpec : FuncSpec) : ParamSpec

/-- An uninstantiated `Function` class produced by `Function(func, name,
**func_kwargs)`: the captured `name` (`fname`), the wrapped-callable id,
and the keyword bindings. -/
inductive FuncSpec : Type where
  | mk (fname : String) (fid : Nat) (kwargs : List (String × ArgSpec)) : FuncSpec

/-- A keyword argument of a `Function` definition, classified as
`Function.__init__` classifies it (lines 295-318): an uninstantiated
`Parameter`/`Constant`/`Function` class, an already-instantiated instance,
or a plain value. -/
inductive ArgSpec : Type where
  | paramCls (s : ParamSpec) : ArgSpec
  | constCls (v : PVal) : ArgSpec
  | paramInst (p : PParam) : ArgSpec
  | constInst (n : String) (v : PVal) : ArgSpec
  | funcCls (g : FuncSpec) : ArgSpec
  | funcInst (g : PFunc) : ArgSpec
  | lit (v : PVal) : ArgSpec
end

def FuncSpec.fname : FuncSpec → String
  | .mk n _ _ => n

def FuncSpec.fid : FuncSpec → Nat
  | .mk _ i _ => i

def FuncSpec.kwargs : FuncSpec → List (String × ArgSpec)
  | .mk _ _ ks => ks

mutual
/-- `Parameter.__init__(self, name)`: `self.name = name;
self.prior = self._prior(name)` (the prior `Function` class is
instantiated under the parameter's name, with no pulsar). -/
def ParamSpec.instantiate : ParamSpec → String → PParam
  | .mk size sampler priorSpec, nm =>
      .mk nm size sampler (FuncSpec.instantiate priorSpec nm none)

/-- `Function.__init__(self, name, psr=None)` (lines 271-318). -/
def FuncSpec.instantiate : FuncSpec → String → Option PVal → PFunc
  | .mk fname fid kws, nm, psr =>
      let st := instSlots nm fname psr kws ([], [], [])
      .mk (joinName [nm, fname]) fid psr st.1 st.2.1 st.2.2
        (kws.map (fun kv => kv.1))

/-- The classification loop of `Function.__init__` over
`func_kwargs.items()`, accumulating `(_params, _funcs, _defaults)`:
uninstantiated classes are instantiated under the name
`'_'.join([n for n in [name, fname, kw] if n])`; instances are stored
as-is; instantiated sub-functions merge their `_params` into the node's
own `_params` (later merges overwrite existing keys); anything else is a
literal default. -/
def instSlots (nm fname : String) (psr : Option PVal) :
    List (String × ArgSpec) →
    (List (String × SubPar) × List (String × PFunc) × List (String × PVal)) →
    (List (String × SubPar) × List (String × PFunc) × List (String × PVal))
  | [], st => st
  | (kw, .paramCls s) :: rest, (ps, fs, ds) =>
      instSlots nm fname psr rest
        (dinsert ps kw (SubPar.par (ParamSpec.instantiate s (joinName [nm, fname, kw]))),
         fs, ds)
  | (kw, .constCls v) :: rest, (ps, fs, ds) =>
      instSlots nm fname psr rest
        (dinsert ps kw (SubPar.const (joinName [nm, fname, kw]) v), fs, ds)
  | (kw, .paramInst p) :: rest, (ps, fs, ds) =>
      instSlots nm fname psr rest (dinsert ps kw (SubPar.par p), fs, ds)
  | (kw, .constInst n v) :: rest, (ps, fs, ds) =>
      instSlots nm fname psr rest (dinsert ps kw (SubPar.const n v), fs, ds)
  | (kw, .funcCls g) :: rest, (ps, fs, ds) =>
      instSlots nm fname psr rest
        (dupdate ps (FuncSpec.instantiate g (joinName [nm, fname, kw]) psr).fparams,
         dinsert fs kw (FuncSpec.instantiate g (joinName [nm, fname, kw]) psr), ds)
  | (kw, .funcInst gf) :: rest, (ps, fs, ds) =>
      instSlots nm fname psr rest (dupdate ps gf.fparams, dinsert fs kw gf, ds)
  | (kw, .lit v) :: rest, (ps, fs, ds) =>
      instSlots nm fname psr rest (ps, fs, dinsert ds kw v)
end

/-- A slot list free of sub-function slots (whose instantiation merges
foreign sub-parameters into `_params`). -/
def noFuncSlot (l : List (String × ArgSpec)) : Bool :=
  l.all (fun kv =>
    match kv.2 with
    | .funcCls _ => false
    | .funcInst _ => false
    | _ => true)

theorem instSlots_append (nm fname : String) (psr : Option PVal)
    (l1 l2 : List (String × ArgSpec))
    (st : List (String × SubPar) × List (String × PFunc) × List (String × PVal)) :
    instSlots nm fname psr (l1 ++ l2) st =
      instSlots nm fname psr l2 (instSlots nm fname psr l1 st) := by
  induction l1 generalizing st with
  | nil => simp [instSlots]
  | cons kv rest ih =>
      obtain ⟨kw, arg⟩ := kv
      obtain ⟨ps, gs, ds⟩ := st
      cases arg <;> simp [instSlots, ih]

theorem noFuncSlot_cons (kv : String × ArgSpec) (rest : List (String × ArgSpec)) :
    noFuncSlot (kv :: rest) = true →
    noFuncSlot rest = true := by
  intro h
  simp only [noFuncSlot, List.all_cons, Bool.and_eq_true] at h ⊢
  exact h.2

theorem instSlots_ps_not_mem (nm fname : String) (psr : Option PVal)
    (l : List (String × ArgSpec))
    (st : List (String × SubPar) × List (String × PFunc) × List (String × PVal))
    (k : String) (hk : k ∉ l.map (fun kv => kv.1)) (hnf : noFuncSlot l = true) :
    dlookup (instSlots nm fname psr l st).1 k = dlookup st.1 k := by
  induction l generalizing st with
  | nil => simp [instSlots]
  | cons kv rest ih =>
      obtain ⟨kw, arg⟩ := kv
      obtain ⟨ps, gs, ds⟩ := st
      have hkw : kw ≠ k := by
        intro he; exact hk (by simp [he])
      have hk2 : k ∉ rest.map (fun kv => kv.1) := by
        intro he; exact hk (by simp [he])
      have hnf2 : noFuncSlot rest = true := noFuncSlot_cons _ _ hnf
      cases arg with
      | paramCls s =>
          rw [show instSlots nm fname psr ((kw, ArgSpec.paramCls s) :: rest) (ps, gs, ds) =
              instSlots nm fname psr rest
                (dinsert ps kw
                  (SubPar.par (ParamSpec.instantiate s (joinName [nm, fname, kw]))), gs, ds)
            from rfl]
          rw [ih _ hk2 hnf2]
          exact dlookup_dinsert_ne ps kw k _ hkw
      | constCls v =>
          rw [show instSlots nm fname psr ((kw, ArgSpec.constCls v) :: rest) (ps, gs, ds) =
              instSlots nm fname psr rest
                (dinsert ps kw (SubPar.const (joinName [nm, fname, kw]) v), gs, ds)
            from rfl]
          rw [ih _ hk2 hnf2]
          exact dlookup_dinsert_ne ps kw k _ hkw
      | paramInst p =>
          rw [show instSlots nm fname psr ((kw, ArgSpec.paramInst p) :: rest) (ps, gs, ds) =
              instSlots nm fname psr rest (dinsert ps kw (SubPar.par p), gs, ds) from rfl]
          rw [ih _ hk2 hnf2]
          exact dlookup_dinsert_ne ps kw k _ hkw
      | constInst n v =>
          rw [show instSlots nm fname psr ((kw, ArgSpec.constInst n v) :: rest) (ps, gs, ds) =
              instSlots nm fname psr rest (dinsert ps kw (SubPar.const n v), gs, ds) from rfl]
          rw [ih _ hk2 hnf2]
          exact dlookup_dinsert_ne ps kw k _ hkw
      | funcCls g => simp [noFuncSlot] at hnf
      | funcInst g => simp [noFuncSlot] at hnf
      | lit v =>
          rw [show instSlots nm fname psr ((kw, ArgSpec.lit v) :: rest) (ps, gs, ds) =
              instSlots nm fname psr rest (ps, gs, dinsert ds kw v) from rfl]
          rw [ih _ hk2 hnf2]

theorem instSlots_fs_not_mem (nm fname : String) (psr : Option PVal)
    (l : List (String × ArgSpec))
    (st : List (String × SubPar) × List (String × PFunc) × List (String × PVal))
    (k : String) (hk : k ∉ l.map (fun kv => kv.1)) :
    dlookup (instSlots nm fname psr l st).2.1 k = dlookup st.2.1 k := by
  induction l generalizing st with
  | nil => simp [instSlots]
  | cons kv rest ih =>
      obtain ⟨kw, arg⟩ := kv
      obtain ⟨ps, gs, ds⟩ := st
      have hkw : kw ≠ k := by
        intro he; exact hk (by simp [he])
      have hk2 : k ∉ rest.map (fun kv => kv.1) := by
        intro he; exact hk (by simp [he])
      cases arg with
      | paramCls s =>
          rw [show instSlots nm fname psr ((kw, ArgSpec.paramCls s) :: rest) (ps, gs, ds) =
              instSlots nm fname psr rest
                (dinsert ps kw
                  (SubPar.par (ParamSpec.instantiate s (joinName [nm, fname, kw]))), gs, ds)
            from rfl]
          rw [ih _ hk2]
      | constCls v =>
          rw [show instSlots nm fname psr ((kw, ArgSpec.constCls v) :: rest) (ps, gs, ds) =
              instSlots nm fname psr rest
                (dinsert ps kw (SubPar.const (joinName [nm, fname, kw]) v), gs, ds)
            from rfl]
          rw [ih _ hk2]
      | paramInst p =>
          rw [show instSlots nm fname psr ((kw, ArgSpec.paramInst p) :: rest) (ps, gs, ds) =
              instSlots nm fname psr rest (dinsert ps kw (SubPar.par p), gs, ds) from rfl]
          rw [ih _ hk2]
      | constInst n v =>
          rw [show instSlots nm fname psr ((kw, ArgSpec.constInst n v) :: rest) (ps, gs, ds) =
              instSlots nm fname psr rest (dinsert ps kw (SubPar.const n v), gs, ds) from rfl]
          rw [ih _ hk2]
      | funcCls g =>
          rw [show instSlots nm fname psr ((kw, ArgSpec.funcCls g) :: rest) (ps, gs, ds) =
              instSlots nm fname psr rest
                (dupdate ps (FuncSpec.instantiate g (joinName [nm, fname, kw]) psr).fparams,
                 dinsert gs kw (FuncSpec.instantiate g (joinName [nm, fname, kw]) psr), ds)
            from rfl]
          rw [ih _ hk2]
          exact dlookup_dinsert_ne gs kw k _ hkw
      | funcInst g =>
          rw [show instSlots nm fname psr ((kw, ArgSpec.funcInst g) :: rest) (ps, gs, ds) =
              instSlots nm fname psr rest (dupdate ps g.fparams, dinsert gs kw g, ds)
            from rfl]
          rw [ih _ hk2]
          exact dlookup_dinsert_ne gs kw k _ hkw
      | lit v =>
          rw [show instSlots nm fname psr ((kw, ArgSpec.lit v) :: rest) (ps, gs, ds) =
              instSlots nm fname psr rest (ps, gs, dinsert ds kw v) from rfl]
          rw [ih _ hk2]

theorem instantiate_unfold (fsp : FuncSpec) (nm : String) (psr : Option PVal) :
    FuncSpec.instantiate fsp nm psr =
      PFunc.mk (joinName [nm, fsp.fname]) fsp.fid psr
        (instSlots nm fsp.fname psr fsp.kwargs ([], [], [])).1
        (instSlots nm fsp.fname psr fsp.kwargs ([], [], [])).2.1
        (instSlots nm fsp.fname psr fsp.kwargs ([], [], [])).2.2
        (fsp.kwargs.map (fun kv => kv.1)) := by
  cases fsp with
  | mk fname fid kws =>
      simp [FuncSpec.instantiate, FuncSpec.fname, FuncSpec.fid, FuncSpec.kwargs]

/-- C5: instantiation of a `Function` spec under an outer context name
gives the instance itself the name `'_'.join` of the non-empty members of
(context, intrinsic name), and gives each slot bound to an uninstantiated
`Parameter`/`Constant`/`Function` spec the `'_'.join` of the non-empty
members of (context, intrinsic name, slot key).  The slot clauses are
stated on the final maps, so parameter/constant slots additionally assume
no later sub-function slot merges an entry over the same key. -/
theorem hierarchical_naming (fsp : FuncSpec) (nm : String) (psr : Option PVal) :
    (FuncSpec.instantiate fsp nm psr).name = joinName [nm, fsp.fname] ∧
    (∀ pre kw s post,
        fsp.kwargs = pre ++ (kw, ArgSpec.paramCls s) :: post →
        (fsp.kwargs.map (fun kv => kv.1)).Nodup →
        noFuncSlot post = true →
        dlookup (FuncSpec.instantiate fsp nm psr).fparams kw =
          some (SubPar.par (ParamSpec.instantiate s (joinName [nm, fsp.fname, kw]))) ∧
        (ParamSpec.instantiate s (joinName [nm, fsp.fname, kw])).name =
          joinName [nm, fsp.fname, kw]) ∧
    (∀ pre kw v post,
        fsp.kwargs = pre ++ (kw, ArgSpec.constCls v) :: post →
        (fsp.kwargs.map (fun kv => kv.1)).Nodup →
        noFuncSlot post = true →
        dlookup (FuncSpec.instantiate fsp nm psr).fparams kw =
          some (SubPar.const (joinName [nm, fsp.fname, kw]) v)) ∧
    (∀ pre kw g post,
        fsp.kwargs = pre ++ (kw, ArgSpec.funcCls g) :: post →
        (fsp.kwargs.map (fun kv => kv.1)).Nodup →
        dlookup (FuncSpec.instantiate fsp nm psr).ffuncs kw =
          some (FuncSpec.instantiate g (joinName [nm, fsp.fname, kw]) psr) ∧
        (FuncSpec.instantiate g (joinName [nm, fsp.fname, kw]) psr).name =
          joinName [joinName [nm, fsp.fname, kw], g.fname]) := by
  refine ⟨by rw [instantiate_unfold]; rfl, ?_, ?_, ?_⟩
  · intro pre kw s post hsplit hnd hnf
    have hkwpost : kw ∉ post.map (fun kv => kv.1) := by
      rw [hsplit] at hnd
      simp only [List.map_append, List.map_cons] at hnd
      exact (List.nodup_cons.mp (List.nodup_append.mp hnd).2.1).1
    constructor
    · rw [instantiate_unfold]
      simp only [PFunc.fparams]
      rw [hsplit, instSlots_append]
      rcases instSlots nm fsp.fname psr pre ([], [], []) with ⟨ps, gs, ds⟩
      rw [show instSlots nm fsp.fname psr ((kw, ArgSpec.paramCls s) :: post) (ps, gs, ds) =
          instSlots nm fsp.fname psr post
            (dinsert ps kw
              (SubPar.par (ParamSpec.instantiate s (joinName [nm, fsp.fname, kw]))), gs, ds)
        from rfl]
      rw [instSlots_ps_not_mem _ _ _ post _ kw hkwpost hnf]
      exact dlookup_dinsert_self ps kw _
    · cases s with
      | mk a b c => rfl
  · intro pre kw v post hsplit hnd hnf
    have hkwpost : kw ∉ post.map (fun kv => kv.1) := by
      rw [hsplit] at hnd
      simp only [List.map_append, List.map_cons] at hnd
      exact (List.nodup_cons.mp (List.nodup_append.mp hnd).2.1).1
    rw [instantiate_unfold]
    simp only [PFunc.fparams]
    rw [hsplit, instSlots_append]
    rcases instSlots nm fsp.fname psr pre ([], [], []) with ⟨ps, gs, ds⟩
    rw [show instSlots nm fsp.fname psr ((kw, ArgSpec.constCls v) :: post) (ps, gs, ds) =
        instSlots nm fsp.fname psr post
          (dinsert ps kw (SubPar.const (joinName [nm, fsp.fname, kw]) v), gs, ds)
      from rfl]
    rw [instSlots_ps_not_mem _ _ _ post _ kw hkwpost hnf]
    exact dlookup_dinsert_self ps kw _
  · intro pre kw g post hsplit hnd
    have hkwpost : kw ∉ post.map (fun kv => kv.1) := by
      rw [hsplit] at hnd
      simp only [List.map_append, List.map_cons] at hnd
      exact (List.nodup_cons.mp (List.nodup_append.mp hnd).2.1).1
    constructor
    · rw [instantiate_unfold]
      simp only [PFunc.ffuncs]
      rw [hsplit, instSlots_append]
      rcases instSlots nm fsp.fname psr pre ([], [], []) with ⟨ps, gs, ds⟩
      rw [show instSlots nm fsp.fname psr ((kw, ArgSpec.funcCls g) :: post) (ps, gs, ds) =
          instSlots nm fsp.fname psr post
            (dupdate ps (FuncSpec.instantiate g (joinName [nm, fsp.fname, kw]) psr).fparams,
             dinsert gs kw (FuncSpec.instantiate g (joinName [nm, fsp.fname, kw]) psr), ds)
        from rfl]
      rw [instSlots_fs_not_mem _ _ _ post _ kw hkwpost]
      exact dlookup_dinsert_self gs kw _
    · rw [instantiate_unfold]
      rfl

/-- The `Uniform(0, 1)` class: size `None`, the `UniformSampler`, and the
prior `Function(UniformPrior, pmin=0, pmax=1)` whose bounds are literal
defaults. -/
def uniformSpecW : ParamSpec :=
  .mk none (some 0) (.mk "" 40 [("pmin", ArgSpec.lit (PVal.int 0)),
                                ("pmax", ArgSpec.lit (PVal.int 1))])

def fsW : FuncSpec := .mk "" 41 [("a", ArgSpec.paramCls uniformSpecW)]

/-- C5 witness: a `Function` with keyword `a` bound to the uninstantiated
`Uniform(0,1)` spec, instantiated under context name `sig` (and empty
intrinsic name), stores under `a` a sub-parameter named `sig_a`. -/
theorem hierarchical_naming_witness :
    ((fsW.kwargs.map (fun kv => kv.1)).Nodup ∧ noFuncSlot [] = true) ∧
    (dlookup (FuncSpec.instantiate fsW "sig" none).fparams "a" =
        some (SubPar.par (ParamSpec.instantiate uniformSpecW (joinName ["sig", "", "a"]))) ∧
      (ParamSpec.instantiate uniformSpecW (joinName ["sig", "", "a"])).name =
        joinName ["sig", "", "a"]) ∧
    joinName ["sig", "", "a"] = "sig_a" :=
  ⟨⟨by decide, rfl⟩,
   (hierarchical_naming fsW "sig" none).2.1 [] "a" uniformSpecW [] rfl (by decide) rfl,
   by decide⟩

/-- The test of the loop in `function`'s wrapper (lines 429-434): a
keyword value that is a `Parameter`/`ConstantParameter` class or instance,
or a `FunctionBase` class or instance — everything except a plain value. -/
def ArgSpec.isSpecLike : ArgSpec → Bool
  | .lit _ => false
  | _ => true

/-- The outcome of calling a decorated wrapper: either the wrapped callable
is invoked immediately on the given arguments, or an uninstantiated
`Function` spec capturing the keyword bindings is returned. -/
inductive WrapRes : Type where
  | immediate (args : List ArgSpec) (kwargs : List (String × ArgSpec)) : WrapRes
  | spec (fsp : FuncSpec) : WrapRes

def WrapRes.isSpecRes : WrapRes → Bool
  | .immediate _ _ => false
  | .spec _ => true

/-- The wrapper produced by the `function` decorator (lines 409-439):
`funcargs` are the declared positional argument names of the wrapped
callable, `args` the positional and `kwargs` the keyword arguments of the
call.  `fargs` maps the first `len(funcargs)` positional values to their
names and adds the keywords; if some declared positional name is missing,
or some keyword value is a spec/instance, `Function(func, **kwargs)` is
returned; otherwise the callable runs immediately. -/
def wrapperCall (fid : Nat) (funcargs : List String) (args : List ArgSpec)
    (kwargs : List (String × ArgSpec)) : WrapRes :=
  if !(funcargs.all (fun fa =>
        ((funcargs.zip args).map (fun kv => kv.1) ++
          kwargs.map (fun kv => kv.1)).contains fa)) then .spec (.mk "" fid kwargs)
  else if kwargs.any (fun kv => kv.2.isSpecLike) then .spec (.mk "" fid kwargs)
  else .immediate args kwargs

/-- C9 counterexample: the claim says invoking the wrapper with any
spec/instance argument returns an uninstantiated `Function` spec.  Passing
the `Uniform(0,1)` spec positionally, with all declared positionals
supplied, instead invokes the callable immediately: the spec-detection
loop of the wrapper inspects keyword values only. -/
theorem function_decorator_positional_spec_counterexample :
    ArgSpec.isSpecLike (ArgSpec.paramCls uniformSpecW) = true ∧
    wrapperCall 7 ["x"] [ArgSpec.paramCls uniformSpecW] [] =
      WrapRes.immediate [ArgSpec.paramCls uniformSpecW] [] ∧
    WrapRes.isSpecRes (wrapperCall 7 ["x"] [ArgSpec.paramCls uniformSpecW] []) = false :=
  ⟨rfl, rfl, rfl⟩

/-- C9 (amended): with every declared positional argument supplied and no
spec/instance among the keyword values, the wrapper invokes the callable
immediately — even if a spec/instance appears positionally; with a
spec/instance among the keyword values, or a declared positional argument
missing, it returns a new uninstantiated `Function` spec capturing only
the keyword bindings. -/
theorem function_decorator_dispatch (fid : Nat) (funcargs : List String)
    (args : List ArgSpec) (kwargs : List (String × ArgSpec)) :
    (funcargs.all (fun fa =>
        (((funcargs.zip args).map (fun kv => kv.1) ++
          kwargs.map (fun kv => kv.1)).contains fa)) = true →
      kwargs.any (fun kv => kv.2.isSpecLike) = false →
      wrapperCall fid funcargs args kwargs = .immediate args kwargs) ∧
    ((funcargs.all (fun fa =>
        (((funcargs.zip args).map (fun kv => kv.1) ++
          kwargs.map (fun kv => kv.1)).contains fa)) = false ∨
      kwargs.any (fun kv => kv.2.isSpecLike) = true) →
      wrapperCall fid funcargs args kwargs = .spec (.mk "" fid kwargs)) := by
  constructor
  · intro h1 h2
    unfold wrapperCall
    rw [h1, h2]
    rfl
  · intro h
    rcases h with h | h
    · unfold wrapperCall
      rw [h]
      rfl
    · unfold wrapperCall
      rw [h]
      rcases hc : (funcargs.all (fun fa =>
          (((funcargs.zip args).map (fun kv => kv.1) ++
            kwargs.map (fun kv => kv.1)).contains fa))) with _ | _ <;> rfl

/-- C9 witness: a spec-valued keyword argument makes the wrapper return
the capturing `Function` spec. -/
theorem function_decorator_dispatch_witness :
    ([("y", ArgSpec.paramCls uniformSpecW)].any (fun kv => kv.2.isSpecLike) = true) ∧
    wrapperCall 9 ["x"] [ArgSpec.lit (PVal.int 5)] [("y", ArgSpec.paramCls uniformSpecW)] =
      .spec (.mk "" 9 [("y", ArgSpec.paramCls uniformSpecW)]) :=
  ⟨rfl,
   (function_decorator_dispatch 9 ["x"] [ArgSpec.lit (PVal.int 5)]
      [("y", ArgSpec.paramCls uniformSpecW)]).2 (Or.inr rfl)⟩

theorem contains_of_mem {l : List String} {a : String} (h : a ∈ l) :
    l.contains a = true := by
  simpa [List.contains] using List.elem_iff.mpr h

theorem resolveStepH_of_found (sub : PFunc → Dict PVal → Nat → Option (PVal × Nat))
    (f : PFunc) (params : Dict PVal) (kw : String) (acc : Dict PVal × Nat)
    (hg : (dlookup acc.1 kw).isSome = true) :
    resolveStepH sub f params kw acc = some acc := by
  unfold resolveStepH
  rw [hg]
  rfl

theorem resolveStepH_shape (sub : PFunc → Dict PVal → Nat → Option (PVal × Nat))
    (f : PFunc) (params : Dict PVal) (kw : String) (acc : Dict PVal × Nat) :
    resolveStepH sub f params kw acc = some acc ∨
    resolveStepH sub f params kw acc = none ∨
    ∃ v σ2, resolveStepH sub f params kw acc = some (dinsert acc.1 kw v, σ2) := by
  cases hg : (dlookup acc.1 kw).isSome with
  | true => exact Or.inl (resolveStepH_of_found sub f params kw acc hg)
  | false =>
      unfold resolveStepH
      rw [hg]
      simp only [Bool.false_eq_true, if_false]
      split
      · split
        · exact Or.inr (Or.inr ⟨_, _, rfl⟩)
        · split
          · exact Or.inr (Or.inr ⟨_, _, rfl⟩)
          · exact Or.inl rfl
      · split
        · exact Or.inr (Or.inr ⟨_, _, rfl⟩)
        · split
          · rename_i g2 hg2
            rcases hsub : sub g2 (acc.1.filter (fun kv => g2.fkwargs.contains kv.1)) acc.2
              with _ | r
            · exact Or.inr (Or.inl rfl)
            · exact Or.inr (Or.inr ⟨r.1, r.2, rfl⟩)
          · exact Or.inl rfl

theorem resolveStepH_preserve_some (sub : PFunc → Dict PVal → Nat → Option (PVal × Nat))
    (f : PFunc) (params : Dict PVal) (kw2 : String) (acc acc2 : Dict PVal × Nat)
    (k : String) (v : PVal)
    (hs : resolveStepH sub f params kw2 acc = some acc2)
    (hk : dlookup acc.1 k = some v) : dlookup acc2.1 k = some v := by
  by_cases hkk : kw2 = k
  · subst hkk
    rw [resolveStepH_of_found sub f params kw2 acc (by rw [hk]; rfl)] at hs
    cases hs
    exact hk
  · rcases resolveStepH_shape sub f params kw2 acc with h | h | ⟨v2, σ2, h⟩
    · rw [h] at hs; cases hs; exact hk
    · rw [h] at hs; cases hs
    · rw [h] at hs
      cases hs
      rw [dlookup_dinsert_ne acc.1 kw2 k v2 hkk]
      exact hk

theorem resolveStepH_preserve_none (sub : PFunc → Dict PVal → Nat → Option (PVal × Nat))
    (f : PFunc) (params : Dict PVal) (kw2 : String) (acc acc2 : Dict PVal × Nat)
    (k : String) (hkk : kw2 ≠ k)
    (hs : resolveStepH sub f params kw2 acc = some acc2)
    (hk : dlookup acc.1 k = none) : dlookup acc2.1 k = none := by
  rcases resolveStepH_shape sub f params kw2 acc with h | h | ⟨v2, σ2, h⟩
  · rw [h] at hs; cases hs; exact hk
  · rw [h] at hs; cases hs
  · rw [h] at hs
    cases hs
    rw [dlookup_dinsert_ne acc.1 kw2 k v2 hkk]
    exact hk

theorem resolveAllH_not_mem (sub : PFunc → Dict PVal → Nat → Option (PVal × Nat))
    (f : PFunc) (params : Dict PVal) (l : List String) (acc acc2 : Dict PVal × Nat)
    (k : String) (hk : k ∉ l)
    (h : resolveAllH sub f params l acc = some acc2) :
    dlookup acc2.1 k = dlookup acc.1 k := by
  induction l generalizing acc with
  | nil =>
      simp only [resolveAllH, Option.some.injEq] at h
      rw [← h]
  | cons kw rest ih =>
      have hkw : kw ≠ k := by rintro rfl; exact hk (List.mem_cons_self _ _)
      have hk2 : k ∉ rest := fun hm => hk (List.mem_cons_of_mem _ hm)
      simp only [resolveAllH] at h
      rcases hstep : resolveStepH sub f params kw acc with _ | accMid
      · rw [hstep] at h; cases h
      · rw [hstep] at h
        simp only [Option.some_bind] at h
        rw [ih accMid hk2 h]
        cases hcur : dlookup acc.1 k with
        | none => exact resolveStepH_preserve_none sub f params kw acc accMid k hkw hstep hcur
        | some v => exact resolveStepH_preserve_some sub f params kw acc accMid k v hstep hcur

theorem resolveAllH_append (sub : PFunc → Dict PVal → Nat → Option (PVal × Nat))
    (f : PFunc) (params : Dict PVal) (l1 l2 : List String) (acc : Dict PVal × Nat) :
    resolveAllH sub f params (l1 ++ l2) acc =
      (resolveAllH sub f params l1 acc).bind (resolveAllH sub f params l2) := by
  induction l1 generalizing acc with
  | nil => simp [resolveAllH]
  | cons kw rest ih =>
      simp only [List.cons_append, resolveAllH]
      rcases resolveStepH sub f params kw acc with _ | accMid
      · simp
      · simp [ih]

/-- The value the resolution loop of `Function.__call__` gives a declared
slot `kw`, relative to the state `(accd, accσ)` the loop has reached when it
arrives at `kw` and the final keyword dictionary `final`: a key already
present (an explicit override, under distinct slot keys) stays; else the
sub-parameter map is consulted first (`context[par.name]`, then a
constant's fixed value, else the slot stays unresolved), then the literal
defaults, then the sub-functions — a sub-function is evaluated on the
declared subset of the current partially-resolved keyword mapping plus the
full context; a key in no map stays unresolved. -/
def SlotSpec (sub : PFunc → Dict PVal → Nat → Option (PVal × Nat)) (f : PFunc)
    (params : Dict PVal) (accd : Dict PVal) (accσ : Nat) (kw : String)
    (final : Dict PVal) : Prop :=
  match dlookup accd kw with
  | some v => dlookup final kw = some v
  | none =>
    match dlookup f.fparams kw with
    | some sp =>
        dlookup final kw =
          (match dlookup params sp.spname with
           | some v => some v
           | none => sp.constVal)
    | none =>
      match dlookup f.fdefaults kw with
      | some v => dlookup final kw = some v
      | none =>
        match dlookup f.ffuncs kw with
        | some g => ∃ r σg,
            sub g (accd.filter (fun kv => g.fkwargs.contains kv.1)) accσ = some (r, σg) ∧
            dlookup final kw = some r
        | none => dlookup final kw = none

/-- C2 (amended): for an instantiated `Function` with distinct declared
slot keys (and no pulsar attached), `Function.__call__` resolves each
declared slot in declaration order: an explicit override wins outright;
else a slot whose key is in the sub-parameter map — which also holds every
sub-parameter merged from sub-function slots, later merges overwriting
earlier entries — takes `context[name]` if present, else the constant's
fixed value, else stays unresolved; else a literal default; else a
sub-function slot is evaluated with the declared subset of the current
partially-resolved keyword mapping plus the full context; finally every
key neither a declared slot nor in the allow-list `{psr, mask, size}` is
dropped before the wrapped callable is invoked on the result. -/
theorem function_call_resolution (E : Env) (fuel : Nat) (f : PFunc) (args : List PVal)
    (params kwargs0 : Dict PVal) (σ : Nat)
    (hnd : f.fkwargs.Nodup) (hpsr : f.psr = none) :
    (∀ pre kw post, f.fkwargs = pre ++ kw :: post →
      ∀ accd accσ,
        resolveAllH (subEval E fuel params) f params pre (kwargs0, σ) = some (accd, accσ) →
        dlookup accd kw = dlookup kwargs0 kw ∧
        (∀ d σf,
          resolveAllH (subEval E fuel params) f params f.fkwargs (kwargs0, σ) =
            some (d, σf) →
          SlotSpec (subEval E fuel params) f params accd accσ kw d)) ∧
    (∀ r σf, callF E (fuel + 1) f args params none kwargs0 σ = some (r, σf) →
      ∃ d, resolveAllH (subEval E fuel params) f params f.fkwargs (kwargs0, σ) =
            some (d, σf) ∧
        r = E.gam f.fid args (postProcess f d) ∧
        (∀ kw ∈ f.fkwargs, dlookup (postProcess f d) kw = dlookup d kw) ∧
        (∀ kv ∈ postProcess f d,
          f.fkwargs.contains kv.1 = true ∨ allowKeys.contains kv.1 = true)) := by
  constructor
  · intro pre kw post hsplit accd accσ hpre
    have hnd2 : (pre ++ kw :: post).Nodup := hsplit ▸ hnd
    have hkpre : kw ∉ pre := by
      intro hm
      exact (List.nodup_append.mp hnd2).2.2 hm (List.mem_cons_self _ _)
    have hkpost : kw ∉ post := (List.nodup_cons.mp (List.nodup_append.mp hnd2).2.1).1
    refine ⟨resolveAllH_not_mem _ f params pre (kwargs0, σ) (accd, accσ) kw hkpre hpre, ?_⟩
    intro d σf hfull
    rw [hsplit, resolveAllH_append, hpre] at hfull
    simp only [Option.some_bind, resolveAllH] at hfull
    rcases hstep : resolveStepH (subEval E fuel params) f params kw (accd, accσ)
      with _ | accMid
    · rw [hstep] at hfull; cases hfull
    · rw [hstep] at hfull
      simp only [Option.some_bind] at hfull
      have hdk : dlookup d kw = dlookup accMid.1 kw :=
        resolveAllH_not_mem _ f params post accMid (d, σf) kw hkpost hfull
      cases hacc : dlookup accd kw with
      | some v =>
          rw [resolveStepH_of_found _ f params kw (accd, accσ) (by simp [hacc])] at hstep
          cases hstep
          simp only [SlotSpec, hacc]
          rw [hdk]
          exact hacc
      | none =>
          simp only [resolveStepH, hacc, Option.isSome_none, Bool.false_eq_true,
            if_false] at hstep
          simp only [SlotSpec, hacc]
          split at hstep
          · rename_i sp hp
            try simp only [hp]
            split at hstep
            · rename_i v hv
              try simp only [hv]
              cases hstep
              rw [hdk]
              exact dlookup_dinsert_self accd kw v
            · rename_i hv
              try simp only [hv]
              split at hstep
              · rename_i cv hc
                try simp only [hc]
                cases hstep
                rw [hdk]
                exact dlookup_dinsert_self accd kw cv
              · rename_i hc
                try simp only [hc]
                cases hstep
                rw [hdk]
                exact hacc
          · rename_i hp
            try simp only [hp]
            split at hstep
            · rename_i v hd2
              try simp only [hd2]
              cases hstep
              rw [hdk]
              exact dlookup_dinsert_self accd kw v
            · rename_i hd2
              try simp only [hd2]
              split at hstep
              · rename_i g hf2
                try simp only [hf2]
                rcases hsub : subEval E fuel params g
                    (accd.filter (fun kv => g.fkwargs.contains kv.1)) accσ with _ | r
                · rw [hsub] at hstep
                  simp at hstep
                · obtain ⟨rv, rσ⟩ := r
                  rw [hsub] at hstep
                  simp only [Option.map_some'] at hstep
                  cases hstep
                  refine ⟨rv, rσ, rfl, ?_⟩
                  rw [hdk]
                  exact dlookup_dinsert_self accd kw rv
              · rename_i hf2
                try simp only [hf2]
                cases hstep
                rw [hdk]
                exact hacc
  · intro r σf hcall
    rw [callF_succ] at hcall
    rcases hres : resolveAllH (subEval E fuel params) f params f.fkwargs (kwargs0, σ)
      with _ | dp
    · rw [hres] at hcall; cases hcall
    · obtain ⟨d1, σ1⟩ := dp
      rw [hres] at hcall
      simp only [Option.map_some'] at hcall
      cases hcall
      refine ⟨d1, rfl, rfl, ?_, ?_⟩
      · intro kw hkw
        unfold postProcess
        rw [hpsr]
        rw [dlookup_filter (fun k => f.fkwargs.contains k || allowKeys.contains k)]
        rw [if_pos]
        rw [contains_of_mem hkw]
        rfl
      · intro kv hkv
        unfold postProcess at hkv
        rw [hpsr] at hkv
        have := (List.mem_filter.mp hkv).2
        rcases Bool.or_eq_true_iff.mp this with h | h
        · exact Or.inl h
        · exact Or.inr h

/-- Modelled from the spec (the claim's reading of the evaluation
contract), for comparison with the code path: each declared slot is
resolved independently, per its classification at instantiation — an
explicit override wins outright; a slot classified as a sub-parameter
takes `context[fully-qualified-name]` if present, else the constant's
fixed value, else stays unresolved; a slot classified as a literal default
takes its literal; a slot classified as a sub-function is recursively
evaluated with only the overrides it declares plus the full context. -/
def claimSlotVal (E : Env) (fuel : Nat) (nm fname : String) (psr : Option PVal)
    (params kwargs0 : Dict PVal) (kw : String) (arg : ArgSpec) : Option PVal :=
  match dlookup kwargs0 kw with
  | some v => some v
  | none =>
    match arg with
    | .paramCls _ => dlookup params (joinName [nm, fname, kw])
    | .paramInst p => dlookup params p.name
    | .constCls v =>
        match dlookup params (joinName [nm, fname, kw]) with
        | some w => some w
        | none => some v
    | .constInst n v =>
        match dlookup params n with
        | some w => some w
        | none => some v
    | .lit v => some v
    | .funcCls g =>
        (callF E fuel (FuncSpec.instantiate g (joinName [nm, fname, kw]) psr) [] params
            none
            (kwargs0.filter (fun kv =>
              (FuncSpec.instantiate g (joinName [nm, fname, kw]) psr).fkwargs.contains kv.1))
            0).map (fun r => r.1)
    | .funcInst g =>
        (callF E fuel g [] params none
            (kwargs0.filter (fun kv => g.fkwargs.contains kv.1)) 0).map (fun r => r.1)

/-- Modelled from the spec: the whole evaluation per the claim's clauses —
the wrapped callable applied to the independently resolved slots
(unresolved slots fall through to the callable's own defaults and are
dropped). -/
def claimCall (E : Env) (fuel : Nat) (fsp : FuncSpec) (nm : String) (psr : Option PVal)
    (args : List PVal) (params kwargs0 : Dict PVal) : PVal :=
  E.gam fsp.fid args
    ((fsp.kwargs.map (fun kv =>
        (kv.1, claimSlotVal E fuel nm fsp.fname psr params kwargs0 kv.1 kv.2))).filterMap
      (fun kv => kv.2.map (fun v => (kv.1, v))))

/-- An already-instantiated parameter named `P2` with a trivial prior. -/
def p2CE : PParam := .mk "P2" none none (.mk "" 0 none [] [] [] [])

/-- An already-instantiated sub-function whose slot `a` is bound to `P2`. -/
def gCE : PFunc := .mk "g" 21 none [("a", SubPar.par p2CE)] [] [] ["a"]

/-- `Function(F, a=3, b=g)`: slot `a` is a literal default, slot `b` an
instantiated sub-function declaring its own slot `a`. -/
def fsCE : FuncSpec := .mk "" 20 [("a", ArgSpec.lit (PVal.int 3)), ("b", ArgSpec.funcInst gCE)]

/-- Every callable returns its resolved `a` keyword; samplers return 0. -/
def envCE : Env :=
  { gam := fun _ _ kws => (dlookup kws "a").getD PVal.vnone,
    del := fun _ _ _ => PVal.int 0 }

/-- C2 counterexample: on the instantiation of `Function(F, a=3, b=g)`
(`g` an instantiated sub-function declaring slot `a`, bound to parameter
`P2`), called with context `{P2: 9}` and no overrides, the code resolves
slot `a` through the sub-parameter map — into which instantiating slot `b`
merged `g`'s entry `a ↦ P2` — so the callable receives `a = 9`; the claim
as stated classifies `a` as a literal-default slot and predicts `a = 3`.
The two disagree, refuting the claimed resolution order. -/
theorem function_call_resolution_counterexample :
    callF envCE 3 (FuncSpec.instantiate fsCE "" none) [] [("P2", PVal.int 9)] none [] 0 =
      some (PVal.int 9, 0) ∧
    claimCall envCE 3 fsCE "" none [] [("P2", PVal.int 9)] [] = PVal.int 3 ∧
    PVal.int 9 ≠ PVal.int 3 :=
  ⟨rfl, rfl, by decide⟩

/-- A one-slot instance whose slot `a` is a constant sub-parameter. -/
def fW2 : PFunc := .mk "fW2" 30 none [("a", SubPar.const "c" (PVal.int 5))] [] [] ["a"]

/-- C2 witness: the resolution characterization applied to the one-slot
instance `fW2` with empty context and overrides resolves slot `a` to the
constant's value 5. -/
theorem function_call_resolution_witness :
    PFunc.fkwargs fW2 = [] ++ "a" :: [] ∧ (PFunc.fkwargs fW2).Nodup ∧
    PFunc.psr fW2 = none ∧
    resolveAllH (subEval envCE 1 []) fW2 [] (PFunc.fkwargs fW2) ([], 0) =
      some ([("a", PVal.int 5)], 0) ∧
    SlotSpec (subEval envCE 1 []) fW2 [] [] 0 "a" [("a", PVal.int 5)] :=
  ⟨rfl, by decide, rfl, rfl,
   (((function_call_resolution envCE 1 fW2 [] [] [] 0 (by decide) rfl).1
       [] "a" [] rfl [] 0 rfl).2 [("a", PVal.int 5)] 0 rfl)⟩

/-- A numpy value over `ℚ`: a scalar (0-d) or a 1-d array. -/
inductive NpVal : Type where
  | scalar (x : ℚ) : NpVal
  | arr (xs : List ℚ) : NpVal
deriving DecidableEq, Repr

/-- Elementwise `np.log`, the logarithm itself supplied by the library. -/
def npLog (lg : ℚ → ℚ) : NpVal → NpVal
  | .scalar x => .scalar (lg x)
  | .arr xs => .arr (xs.map lg)

/-- `np.sum`: a 0-d input passes through as the scalar itself; an array is
summed to a scalar. -/
def npSum : NpVal → NpVal
  | .scalar x => .scalar x
  | .arr xs => .scalar xs.sum

/-- `np.prod`. -/
def npProd : NpVal → NpVal
  | .scalar x => .scalar x
  | .arr xs => .scalar xs.prod

/-- An elementwise unary library function (such as `10**x`). -/
def npMap (g : ℚ → ℚ) : NpVal → NpVal
  | .scalar x => .scalar (g x)
  | .arr xs => .arr (xs.map g)

/-- A broadcasting binary operation (arrays assumed of equal length). -/
def npZip (g : ℚ → ℚ → ℚ) : NpVal → NpVal → NpVal
  | .scalar a, .scalar b => .scalar (g a b)
  | .scalar a, .arr bs => .arr (bs.map (fun b => g a b))
  | .arr as2, .scalar b => .arr (as2.map (fun a => g a b))
  | .arr as2, .arr bs => .arr ((as2.zip bs).map (fun ab => g ab.1 ab.2))

/-- `np.any(x >= y)` with broadcasting. -/
def npAnyGe : NpVal → NpVal → Bool
  | .scalar a, .scalar b => decide (a ≥ b)
  | .scalar a, .arr bs => bs.any (fun b => decide (a ≥ b))
  | .arr as2, .scalar b => as2.any (fun a => decide (a ≥ b))
  | .arr as2, .arr bs => (as2.zip bs).any (fun ab => decide (ab.1 ≥ ab.2))

/-- A concrete `Parameter` instance of the numeric layer: `prior` is the
denotation of `self.prior(value)` — the instantiated prior `Function`
resolving its hyperparameter keywords and calling the density function —
and `sampler` the denotation of `self.prior(func=self._sampler,
size=self._size)`, taking the size. -/
structure NumParam : Type where
  name : String
  size : Option Nat
  prior : NpVal → Except String NpVal
  sampler : Option (Option Nat → Except String NpVal)

/-- `Parameter.get_logpdf` (lines 46-51): take the value, or look it up in
`params` under the parameter's own name; evaluate the prior; take the log;
return it unreduced when `size` is `None`, else `np.sum` it. -/
def NumParam.get_logpdf (lg : ℚ → ℚ) (p : NumParam) (value : Option NpVal)
    (params : Dict NpVal) : Except String NpVal := do
  let v ← match value with
    | some v => pure v
    | none =>
        match dlookup params p.name with
        | some v => pure v
        | none => Except.error "KeyError"
  let pdf ← p.prior v
  pure (match p.size with
    | none => npLog lg pdf
    | some _ => npSum (npLog lg pdf))

/-- `Parameter.get_pdf` (lines 53-58), with `np.prod` in place of the
log-and-sum. -/
def NumParam.get_pdf (p : NumParam) (value : Option NpVal)
    (params : Dict NpVal) : Except String NpVal := do
  let v ← match value with
    | some v => pure v
    | none =>
        match dlookup params p.name with
        | some v => pure v
        | none => Except.error "KeyError"
  let pdf ← p.prior v
  pure (match p.size with
    | none => pdf
    | some _ => npProd pdf)

/-- C3: with `size` set, a prior returning independent per-component
densities is reduced — `get_logpdf` to the sum of the per-component
log-densities, `get_pdf` to their product; a prior returning a single
scalar joint density is passed through without further reduction
(`get_logpdf` returns its log); with `size = None` both return the
(log-)density unreduced. -/
theorem pdf_reduction (lg : ℚ → ℚ) (p : NumParam) (v : NpVal) (ps : Dict NpVal) :
    (∀ n ds, p.size = some n → p.prior v = .ok (.arr ds) →
      p.get_logpdf lg (some v) ps = .ok (.scalar ((ds.map lg).sum)) ∧
      p.get_pdf (some v) ps = .ok (.scalar ds.prod)) ∧
    (∀ n d, p.size = some n → p.prior v = .ok (.scalar d) →
      p.get_logpdf lg (some v) ps = .ok (.scalar (lg d)) ∧
      p.get_pdf (some v) ps = .ok (.scalar d)) ∧
    (∀ pv, p.size = none → p.prior v = .ok pv →
      p.get_logpdf lg (some v) ps = .ok (npLog lg pv) ∧
      p.get_pdf (some v) ps = .ok pv) := by
  refine ⟨fun n ds h1 h2 => ?_, fun n d h1 h2 => ?_, fun pv h1 h2 => ?_⟩ <;>
    constructor <;>
      simp [NumParam.get_logpdf, NumParam.get_pdf, h1, h2, npLog, npSum, npProd]

/-- A vector parameter of size 3 whose prior reports the per-component
densities `[2, 3, 4]`. -/
def pW3 : NumParam :=
  { name := "x", size := some 3, prior := fun _ => .ok (.arr [2, 3, 4]), sampler := none }

/-- C3 witness: the reduction evaluated on the concrete vector parameter. -/
theorem pdf_reduction_witness :
    (pW3.size = some 3 ∧ pW3.prior (NpVal.scalar 0) = .ok (.arr [2, 3, 4])) ∧
    NumParam.get_logpdf (fun x => x + 1) pW3 (some (NpVal.scalar 0)) [] =
      .ok (.scalar ((([2, 3, 4] : List ℚ).map (fun x => x + 1)).sum)) ∧
    NumParam.get_pdf pW3 (some (NpVal.scalar 0)) [] =
      .ok (.scalar (([2, 3, 4] : List ℚ).prod)) :=
  ⟨⟨rfl, rfl⟩,
   ((pdf_reduction (fun x => x + 1) pW3 (NpVal.scalar 0) []).1 3 [2, 3, 4] rfl rfl).1,
   ((pdf_reduction (fun x => x + 1) pW3 (NpVal.scalar 0) []).1 3 [2, 3, 4] rfl rfl).2⟩

/-- `LinearExpPrior(value, pmin, pmax)` (lines 200-209): validate
`pmin < pmax` first, then compute
`((pmin <= value) & (value <= pmax)) * np.log(10) * 10**value /
(10**pmax - 10**pmin)`; the external `10**x` is `tenPow` and the constant
`np.log(10)` is `ln10`. -/
def LinearExpPrior (tenPow : ℚ → ℚ) (ln10 : ℚ) (value pmin pmax : NpVal) :
    Except String NpVal :=
  if npAnyGe pmin pmax then .error "LinearExp Parameter requires pmin < pmax."
  else
    .ok (npZip (fun a b => a / b)
      (npZip (fun a b => a * b)
        (npZip (fun a b => a * b)
          (npZip (fun a b => a * b)
            (npZip (fun a b => if a ≤ b then (1 : ℚ) else 0) pmin value)
            (npZip (fun a b => if a ≤ b then (1 : ℚ) else 0) value pmax))
          (NpVal.scalar ln10))
        (npMap tenPow value))
      (npZip (fun a b => a - b) (npMap tenPow pmax) (npMap tenPow pmin)))

/-- `LinearExpSampler(pmin, pmax, size)` (lines 212-220): validate
`pmin < pmax` first, then `np.log10(np.random.uniform(10**pmin, 10**pmax,
size))` with the library's `log10f` and `rvs`. -/
def LinearExpSampler (tenPow : ℚ → ℚ) (log10f : NpVal → NpVal)
    (rvs : NpVal → NpVal → Option Nat → NpVal) (pmin pmax : NpVal)
    (size : Option Nat) : Except String NpVal :=
  if npAnyGe pmin pmax then .error "LinearExp Parameter requires pmin < pmax."
  else .ok (log10f (rvs (npMap tenPow pmin) (npMap tenPow pmax) size))

/-- The `LinearExp(pmin, pmax, size)` parameter instance of the numeric
layer: the prior is `Function(LinearExpPrior, pmin=pmin, pmax=pmax)` with
the bounds resolved as literal defaults, the sampler `LinearExpSampler`
with the instance's `size` passed through. -/
def linExpParam (tenPow : ℚ → ℚ) (ln10 : ℚ) (log10f : NpVal → NpVal)
    (rvs : NpVal → NpVal → Option Nat → NpVal) (nm : String) (pmin pmax : NpVal)
    (size : Option Nat) : NumParam :=
  { name := nm, size := size,
    prior := fun v => LinearExpPrior tenPow ln10 v pmin pmax,
    sampler := some (fun sz => LinearExpSampler tenPow log10f rvs pmin pmax sz) }

/-- `Parameter.sample` in the numeric layer: a configuration error without
a sampler; a usage error when the keyword context carries the parameter's
own name; otherwise the sampler runs with the parameter's size. -/
def NumParam.sample (p : NumParam) (kwargNames : List String) : Except String NpVal :=
  match p.sampler with
  | none => Except.error "No sampler was provided for this Parameter."
  | some s =>
      if kwargNames.contains p.name then Except.error "value already given when sampling"
      else s p.size

/-- C7: whenever `pmin >= pmax` (in any component), the LinearExp density
path and the sampler path both raise the validation error; the universal
quantification over the library functions (`tenPow`, `ln10`, `log10f`,
`rvs`, the log) shows the error is raised before any distribution-library
call.  In particular the error surfaces from `get_pdf`, `get_logpdf` and
`sample` of the LinearExp parameter. -/
theorem linexp_validation (tenPow : ℚ → ℚ) (ln10 : ℚ) (log10f : NpVal → NpVal)
    (rvs : NpVal → NpVal → Option Nat → NpVal) (lg : ℚ → ℚ) (nm : String)
    (pmin pmax value : NpVal) (size : Option Nat) (ps : Dict NpVal)
    (h : npAnyGe pmin pmax = true) :
    LinearExpPrior tenPow ln10 value pmin pmax =
      .error "LinearExp Parameter requires pmin < pmax." ∧
    LinearExpSampler tenPow log10f rvs pmin pmax size =
      .error "LinearExp Parameter requires pmin < pmax." ∧
    NumParam.get_pdf (linExpParam tenPow ln10 log10f rvs nm pmin pmax size)
        (some value) ps = .error "LinearExp Parameter requires pmin < pmax." ∧
    NumParam.get_logpdf lg (linExpParam tenPow ln10 log10f rvs nm pmin pmax size)
        (some value) ps = .error "LinearExp Parameter requires pmin < pmax." ∧
    NumParam.sample (linExpParam tenPow ln10 log10f rvs nm pmin pmax size) [] =
      .error "LinearExp Parameter requires pmin < pmax." := by
  refine ⟨?_, ?_, ?_, ?_, ?_⟩ <;>
    simp [LinearExpPrior, LinearExpSampler, NumParam.get_pdf, NumParam.get_logpdf,
      NumParam.sample, linExpParam, h, List.contains]

/-- C7 witness: `LinearExp(pmin=1, pmax=0)` evaluated with concrete
stand-ins for the library functions. -/
theorem linexp_validation_witness :
    npAnyGe (NpVal.scalar 1) (NpVal.scalar 0) = true ∧
    (LinearExpPrior id 1 (NpVal.scalar 0) (NpVal.scalar 1) (NpVal.scalar 0) =
        .error "LinearExp Parameter requires pmin < pmax." ∧
      LinearExpSampler id id (fun a _ _ => a) (NpVal.scalar 1) (NpVal.scalar 0) none =
        .error "LinearExp Parameter requires pmin < pmax." ∧
      NumParam.get_pdf (linExpParam id 1 id (fun a _ _ => a) "le" (NpVal.scalar 1)
          (NpVal.scalar 0) none) (some (NpVal.scalar 0)) [] =
        .error "LinearExp Parameter requires pmin < pmax." ∧
      NumParam.get_logpdf id (linExpParam id 1 id (fun a _ _ => a) "le" (NpVal.scalar 1)
          (NpVal.scalar 0) none) (some (NpVal.scalar 0)) [] =
        .error "LinearExp Parameter requires pmin < pmax." ∧
      NumParam.sample (linExpParam id 1 id (fun a _ _ => a) "le" (NpVal.scalar 1)
          (NpVal.scalar 0) none) [] =
        .error "LinearExp Parameter requires pmin < pmax.") :=
  ⟨by decide,
   linexp_validation id 1 id (fun a _ _ => a) id "le" (NpVal.scalar 1) (NpVal.scalar 0)
     (NpVal.scalar 0) none [] (by decide)⟩
